import Mathlib

/-
Verification of the schema-resolution, numeric-normalization, filtering and
metric-computation layer of the flight dashboard (src/app.py) against its
natural-language specification.

The table cells are modelled by `Value` (a string, a rational number, or a
missing marker, the latter standing for pandas' NaN).  Columns are lists of
values, the two-column slices used by the grouped computations are lists of
pairs.  Each definition below mirrors one function or expression of
src/app.py; the theorems at the end of the file settle the specification
claims about them.
-/

namespace FlightDash

/-- A cell of the record table: a raw string, a number (pandas numerics are
modelled by `Rat`), or the missing marker (pandas NaN). -/
inductive Value where
  | str : String → Value
  | num : Rat → Value
  | missing : Value
deriving DecidableEq

/-- Mirrors pandas' missingness test (`isna`) on a cell. -/
def Value.isMissing : Value → Bool
  | .missing => true
  | _ => false

/-- The numeric content of a cell, if any. -/
def numOf : Value → Option Rat
  | .num q => some q
  | _ => none

/-- Check that `p` occurs at the head of `c` (character-list version). -/
def charsStartWith : List Char → List Char → Bool
  | [], _ => true
  | _ :: _, [] => false
  | p :: ps, c :: cs => p == c && charsStartWith ps cs

/-- Check that the pattern `pat` occurs contiguously somewhere in `s`. -/
def charsContain (s pat : List Char) : Bool :=
  match s with
  | [] => charsStartWith pat []
  | c :: rest => charsStartWith pat (c :: rest) || charsContain rest pat

/-- Python's substring test `pat in s` used by `find_column` (`word in col`). -/
def strContains (s pat : String) : Bool :=
  charsContain s.data pat.data

/-- Mirrors `load_data`'s `df.columns.str.strip().str.lower()`: the column
names are trimmed and lowercased once at load time, before any matching. -/
def normalizeCols (cols : List String) : List String :=
  cols.map (fun s => s.trim.toLower)

/-- Mirrors `find_column` of src/app.py: scan the columns in their original
order and, for each column, the keywords in priority order; return the first
column containing any keyword as a substring, or `none` when no column
matches. -/
def find_column (cols keywords : List String) : Option String :=
  match cols with
  | [] => none
  | col :: rest =>
    if keywords.any (fun word => strContains col word) then some col
    else find_column rest keywords

/-- Mirrors `airline_col = find_column(["airline", "carrier"])`. -/
def airline_col (cols : List String) : Option String :=
  find_column cols ["airline", "carrier"]

/-- Mirrors `arr_delay_col = find_column(["arr", "arrival"])`. -/
def arr_delay_col (cols : List String) : Option String :=
  find_column cols ["arr", "arrival"]

/-- Mirrors `dep_delay_col = find_column(["dep", "departure"])`. -/
def dep_delay_col (cols : List String) : Option String :=
  find_column cols ["dep", "departure"]

/-- Mirrors `origin_col = find_column(["origin"])`. -/
def origin_col (cols : List String) : Option String :=
  find_column cols ["origin"]

/-- Numeric value of a digit list (most significant first). -/
def charsVal (cs : List Char) : Nat :=
  cs.foldl (fun n c => n * 10 + (c.toNat - 48)) 0

/-- Strip leading and trailing whitespace from a character list (the
whitespace tolerance of `pd.to_numeric` on string tokens). -/
def trimChars (cs : List Char) : List Char :=
  ((cs.dropWhile (fun c => c.isWhitespace)).reverse.dropWhile
    (fun c => c.isWhitespace)).reverse

/-- Parse an unsigned decimal literal ("12", "3.5", "7.", ".25"); `none` on
anything else. -/
def parseUnsigned? (cs : List Char) : Option Rat :=
  let ip := cs.takeWhile (fun c => c != '.')
  match cs.dropWhile (fun c => c != '.') with
  | [] =>
    if !ip.isEmpty && ip.all Char.isDigit then some ((charsVal ip : Nat) : Rat)
    else none
  | _ :: fp =>
    if (!ip.isEmpty || !fp.isEmpty) && ip.all Char.isDigit && fp.all Char.isDigit then
      some (((charsVal ip : Nat) : Rat) + ((charsVal fp : Nat) : Rat) / ((10 : Rat) ^ fp.length))
    else none

/-- Models the numeric parser behind `pd.to_numeric(..., errors="coerce")` on
a string token: optional sign followed by a plain decimal literal, with
surrounding whitespace ignored; `none` when the token does not parse. -/
def parseNumeric? (s : String) : Option Rat :=
  match trimChars s.data with
  | '-' :: rest => (parseUnsigned? rest).map (fun q => -q)
  | '+' :: rest => parseUnsigned? rest
  | cs => parseUnsigned? cs

/-- Mirrors `pd.to_numeric(value, errors="coerce")` on one cell: numbers and
missing cells pass through, strings are parsed, and an unparseable string is
coerced to the missing marker. -/
def to_numeric : Value → Value
  | .num q => .num q
  | .missing => .missing
  | .str s =>
    match parseNumeric? s with
    | some q => .num q
    | none => .missing

/-- Mirrors `clean_numeric(column)` of src/app.py on the bound column's
values: `if column:` — an unbound role leaves the table untouched —
otherwise every cell of the column is coerced with
`pd.to_numeric(..., errors="coerce")`. -/
def clean_numeric : Option (List Value) → Option (List Value)
  | none => none
  | some col => some (col.map to_numeric)

/-- The generic matching predicate of `find_column`: some keyword is a
substring of the column name. -/
def matchesAny (keywords : List String) (col : String) : Bool :=
  keywords.any (fun word => strContains col word)

/-- Arithmetic mean of a list of rationals (pandas `Series.mean` over the
values that remain after dropping NaN): `none` on the empty list. -/
def meanList (l : List Rat) : Option Rat :=
  if l.isEmpty then none else some (l.sum / (l.length : Rat))

/-- Mirrors `valid_data = df[[airline_col, arr_delay_col]].dropna()`: the
(airline, arrival-delay) two-column slice of the filtered table, restricted
to the rows where both cells are present. -/
def valid_data (rows : List (Value × Value)) : List (Value × Value) :=
  rows.filter (fun p => !p.1.isMissing && !p.2.isMissing)

/-- The numeric delay values recorded for airline key `a` in the two-column
slice `g`; missing (and non-numeric) delay cells contribute nothing, which
is how pandas' `mean` skips NaN inside a group. -/
def valsFor (a : Value) (g : List (Value × Value)) : List Rat :=
  (g.filter (fun p => p.1 == a)).filterMap (fun p => numOf p.2)

/-- Mirrors `groupby(airline_col)[arr_delay_col].mean()` on a two-column
slice: one entry per distinct first-component key, carrying the mean of
that key's numeric delay values.  pandas sorts the group keys; no claim in
scope depends on the key order, so the keys are kept in the order
`List.dedup` produces and the grouping is read through `List.lookup`. -/
def groupMeans (g : List (Value × Value)) : List (Value × Rat) :=
  (g.map Prod.fst).dedup.filterMap
    (fun k => (meanList (valsFor k g)).map (fun m => (k, m)))

/-- Mirrors `performance = valid_data.groupby(airline_col)[arr_delay_col].mean()`
from the insight section of src/app.py. -/
def performance (rows : List (Value × Value)) : List (Value × Rat) :=
  groupMeans (valid_data rows)

/-- Pick between the current pair and the best pair of the tail, preferring
the earlier pair on ties (as `Series.idxmin` keeps the first index attaining
the minimum). -/
def betterMin (p : Value × Rat) : Option (Value × Rat) → Value × Rat
  | none => p
  | some q => if p.2 ≤ q.2 then p else q

/-- Pick between the current pair and the best pair of the tail, preferring
the earlier pair on ties (as `Series.idxmax` keeps the first index attaining
the maximum). -/
def betterMax (p : Value × Rat) : Option (Value × Rat) → Value × Rat
  | none => p
  | some q => if q.2 ≤ p.2 then p else q

/-- The first pair attaining the minimal second component. -/
def minPair : List (Value × Rat) → Option (Value × Rat)
  | [] => none
  | p :: rest => some (betterMin p (minPair rest))

/-- The first pair attaining the maximal second component. -/
def maxPair : List (Value × Rat) → Option (Value × Rat)
  | [] => none
  | p :: rest => some (betterMax p (maxPair rest))

/-- Mirrors `performance.idxmin()`. -/
def idxmin (l : List (Value × Rat)) : Option Value :=
  (minPair l).map Prod.fst

/-- Mirrors `performance.idxmax()`. -/
def idxmax (l : List (Value × Rat)) : Option Value :=
  (maxPair l).map Prod.fst

/-- Mirrors the airline-performance insight of src/app.py: drop the rows of
the (airline, arrival-delay) slice with a missing cell; if nothing remains,
or the grouped mean over the remainder is empty, report no labels (the
"insufficient data" warning branches); otherwise report
(best, worst) = (idxmin, idxmax) of the grouped means. -/
def airlineInsight (rows : List (Value × Value)) : Option (Value × Value) :=
  if (valid_data rows).isEmpty then none
  else
    match idxmin (performance rows), idxmax (performance rows) with
    | some b, some w => some (b, w)
    | _, _ => none

/-- Mirrors the on-time computation of src/app.py:
`valid_arr = df[arr_delay_col].dropna()` and, when something remains,
`(valid_arr <= 0).mean() * 100`.  After `clean_numeric` the column holds
only numbers and missing markers, so `filterMap numOf` is exactly
`dropna`. -/
def onTimeRate (delays : List Value) : Option Rat :=
  if (delays.filterMap numOf).isEmpty then none
  else some ((((delays.filterMap numOf).filter (fun q => decide (q ≤ 0))).length : Rat)
    / ((delays.filterMap numOf).length : Rat) * 100)

/-- The guard `if arr_delay_col:` around the on-time insight: an unbound
arrival-delay role produces no on-time rate at all. -/
def onTimeInsight : Option (List Value) → Option Rat
  | none => none
  | some delays => onTimeRate delays

/-- Number of non-missing cells of a column (specification-side count used
to state C5). -/
def nonMissingCount (delays : List Value) : Nat :=
  delays.countP (fun v => !v.isMissing)

/-- Number of cells holding a number that is ≤ 0 (specification-side count
used to state C5). -/
def onTimeCount (delays : List Value) : Nat :=
  delays.countP (fun v =>
    match numOf v with
    | some q => decide (q ≤ 0)
    | none => false)

/-- Mirrors `df[origin_col].value_counts()`: the frequency table of the
non-missing cells of the column, sorted by descending count.  (pandas'
tie-break among equal counts is unspecified; `mergeSort` is stable, and no
claim in scope depends on the tie order.) -/
def value_counts (l : List Value) : List (Value × Nat) :=
  ((l.filter (fun v => !v.isMissing)).dedup.map
    (fun k => (k, (l.filter (fun v => !v.isMissing)).count k))).mergeSort
    (fun p q => q.2 ≤ p.2)

/-- Mirrors `df[origin_col].value_counts().head(10)`. -/
def top10Busiest (l : List Value) : List (Value × Nat) :=
  (value_counts l).take 10

/-- Mirrors `sorted(df[airline_col].dropna().unique())`, the option list of
the sidebar multiselect: the distinct non-missing airline cells.  `f`
extracts the airline cell of a row; the sort order is irrelevant to every
claim in scope and is not modelled. -/
def airlineOptions {α : Type} (f : α → Value) (rows : List α) : List Value :=
  ((rows.map f).filter (fun v => !v.isMissing)).dedup

/-- Mirrors the filter stage `df = df[df[airline_col].isin(airlines)]`:
keep exactly the rows whose airline cell is a member of the selection. -/
def filterByAirline {α : Type} (f : α → Value) (sel : List Value) (rows : List α) :
    List α :=
  rows.filter (fun r => decide (f r ∈ sel))

/-- Mirrors `df.sample(n)`: a without-replacement sample is the sub-list of
the rows at a list of chosen indices, read in the (random) chosen order. -/
def dfSample (rows : List (Value × Value)) (idxs : List Nat) : List (Value × Value) :=
  idxs.filterMap (fun i => rows.get? i)

/-- The index lists a run of `df.sample(min(2000, len(df)))` can draw:
distinct in-range indices, as many as `min 2000 (number of rows)`. -/
def sampleIdxsOK (rows : List (Value × Value)) (idxs : List Nat) : Prop :=
  idxs.Nodup ∧ (∀ i ∈ idxs, i < rows.length) ∧ idxs.length = min 2000 rows.length

/-- The specification's example arrival-delay column
[-5, 0, 3, missing]. -/
def exDelays : List Value :=
  [Value.num (-5), Value.num 0, Value.num 3, Value.missing]

/-- The specification's example slice whose per-airline means are
{A: 5, B: -2, C: 10}. -/
def exMeansRows : List (Value × Value) :=
  [(Value.str "A", Value.num 5), (Value.str "B", Value.num (-2)),
    (Value.str "C", Value.num 10)]

theorem find_column_eq_find? (cols keywords : List String) :
    find_column cols keywords = cols.find? (matchesAny keywords) := by
  induction cols with
  | nil => rfl
  | cons c rest ih =>
    by_cases h : matchesAny keywords c = true
    · simp [find_column, matchesAny] at h ⊢
      simp [h, List.find?_cons_of_pos, matchesAny]
    · simp only [matchesAny, Bool.not_eq_true] at h
      simp [find_column, h, List.find?_cons_of_neg, ih, matchesAny]

/-- C1: schema resolution (`find_column`) scans the trimmed, lowercased
column names in their original table order against the keyword list and
returns the first column containing any keyword as a substring (so when two
columns would match the same role, the earlier column in table order is
bound), and returns `none` — rather than failing — when no column matches. -/
theorem c1_find_column_first_hit (raw keywords : List String) :
    find_column (normalizeCols raw) keywords
      = (normalizeCols raw).find? (matchesAny keywords)
    ∧ (find_column (normalizeCols raw) keywords = none ↔
        ∀ c ∈ normalizeCols raw, ¬ matchesAny keywords c = true) := by
  refine ⟨find_column_eq_find? _ _, ?_⟩
  rw [find_column_eq_find?]
  exact List.find?_eq_none

theorem to_numeric_idem (v : Value) : to_numeric (to_numeric v) = to_numeric v := by
  cases v with
  | num q => rfl
  | missing => rfl
  | str s =>
    cases h : parseNumeric? s <;> simp [to_numeric, h]

/-- C2: numeric normalization (`clean_numeric`, via
`pd.to_numeric(..., errors="coerce")`) maps a column of string tokens so
that exactly the unparseable tokens become missing markers — the number of
missing markers equals the number of invalid tokens — while every parseable
token is converted exactly to its numeric value; a column that is already
numeric (numbers and missing markers only) is left unchanged, and the
normalization is idempotent. -/
theorem c2_clean_numeric_exact :
    (∀ tokens : List String,
      clean_numeric (some (tokens.map Value.str))
        = some (tokens.map (fun s => to_numeric (Value.str s))))
    ∧ (∀ tokens : List String,
      (tokens.map (fun s => to_numeric (Value.str s))).countP Value.isMissing
        = tokens.countP (fun s => (parseNumeric? s).isNone))
    ∧ (∀ s q, parseNumeric? s = some q → to_numeric (Value.str s) = Value.num q)
    ∧ (∀ s, parseNumeric? s = none → to_numeric (Value.str s) = Value.missing)
    ∧ (∀ col : List Value, (∀ v ∈ col, v = Value.missing ∨ ∃ q, v = Value.num q) →
        clean_numeric (some col) = some col)
    ∧ (∀ col : List Value,
        clean_numeric (clean_numeric (some col)) = clean_numeric (some col)) := by
  refine ⟨fun tokens => by simp [clean_numeric, List.map_map, Function.comp], ?_, ?_, ?_, ?_, ?_⟩
  · intro tokens
    rw [List.countP_map]
    refine List.countP_congr (fun s _ => ?_)
    cases h : parseNumeric? s <;>
      simp [Function.comp, to_numeric, h, Value.isMissing]
  · intro s q h
    simp [to_numeric, h]
  · intro s h
    simp [to_numeric, h]
  · intro col h
    simp only [clean_numeric, Option.some.injEq]
    induction col with
    | nil => rfl
    | cons v rest ih =>
      rcases h v (List.mem_cons_self v rest) with hv | ⟨q, hv⟩ <;>
        subst hv <;>
        simp [to_numeric, ih (fun w hw => h w (List.mem_cons_of_mem _ hw))]
  · intro col
    simp [clean_numeric, List.map_map]
    exact fun v _ => to_numeric_idem v

/-- Witness for C2 at concrete inputs: "10" parses and is converted to the
number 10, "abc" does not parse and becomes the missing marker, and an
already-numeric column is left unchanged. -/
theorem c2_witness :
    to_numeric (Value.str "10") = Value.num 10
    ∧ to_numeric (Value.str "abc") = Value.missing
    ∧ clean_numeric (some [Value.num 3, Value.missing])
        = some [Value.num 3, Value.missing] := by
  refine ⟨c2_clean_numeric_exact.2.2.1 "10" 10 (by decide),
    c2_clean_numeric_exact.2.2.2.1 "abc" (by decide),
    c2_clean_numeric_exact.2.2.2.2.1 [Value.num 3, Value.missing] ?_⟩
  intro v hv
  simp only [List.mem_cons, List.mem_singleton, List.not_mem_nil, or_false] at hv
  rcases hv with h | h
  · exact Or.inr ⟨3, h⟩
  · exact Or.inl h

/-- C10: with a column-name sequence whose first column is "carrier", the
airline role and the arrival-delay role resolve to the same column, since
"carrier" contains both the keyword "carrier" and the substring "arr"; the
two roles are not guaranteed to bind distinct columns. -/
theorem c10_airline_arrival_same_column : ∃ cols : List String,
    (airline_col cols).isSome = true ∧ airline_col cols = arr_delay_col cols :=
  ⟨["carrier"], by decide⟩

theorem lookup_filterMap_keys (f : Value → Option Rat) (a : Value) :
    ∀ ks : List Value, ks.Nodup →
      List.lookup a (ks.filterMap (fun k => (f k).map (fun m => (k, m))))
        = if a ∈ ks then f a else none := by
  intro ks
  induction ks with
  | nil => simp [List.lookup]
  | cons k rest ih =>
    intro hnd
    obtain ⟨hk, hrest⟩ := List.nodup_cons.mp hnd
    have hr := ih hrest
    cases hfk : f k with
    | none =>
      rw [List.filterMap_cons, hfk]
      simp only [Option.map_none']
      rw [hr]
      by_cases hak : a = k
      · subst hak
        simp [hk, hfk]
      · simp [List.mem_cons, hak]
    | some m =>
      rw [List.filterMap_cons, hfk]
      simp only [Option.map_some']
      by_cases hak : a = k
      · subst hak
        have hbeq : (a == a) = true := beq_self_eq_true a
        simp [List.lookup, hbeq, hfk, List.mem_cons]
      · have hbeq : (a == k) = false := by simp [hak]
        simp only [List.lookup, hbeq]
        rw [hr]
        simp [List.mem_cons, hak]

theorem lookup_groupMeans (g : List (Value × Value)) (a : Value) :
    List.lookup a (groupMeans g) = meanList (valsFor a g) := by
  unfold groupMeans
  rw [lookup_filterMap_keys _ _ _ (List.nodup_dedup _)]
  by_cases h : a ∈ (g.map Prod.fst).dedup
  · simp [h]
  · rw [if_neg h]
    rw [List.mem_dedup] at h
    have hf : g.filter (fun p => p.1 == a) = [] := by
      rw [List.filter_eq_nil_iff]
      intro p hp
      simp only [beq_iff_eq]
      intro hpa
      exact h (hpa ▸ List.mem_map_of_mem Prod.fst hp)
    simp [valsFor, hf, meanList]

theorem valsFor_valid_data (rows : List (Value × Value)) (a : Value)
    (ha : a ≠ Value.missing) :
    valsFor a (valid_data rows) = valsFor a rows := by
  induction rows with
  | nil => rfl
  | cons p rest ih =>
    obtain ⟨x, y⟩ := p
    by_cases hxa : x = a
    · subst hxa
      have hx : x.isMissing = false := by
        cases x <;> simp [Value.isMissing] at ha ⊢
      cases y with
      | missing =>
        simp [valid_data, valsFor, List.filter_cons, List.filterMap_cons, hx,
          Value.isMissing, numOf] at ih ⊢
        exact ih
      | str s =>
        simp [valid_data, valsFor, List.filter_cons, List.filterMap_cons, hx,
          Value.isMissing, numOf] at ih ⊢
        exact ih
      | num q =>
        simp [valid_data, valsFor, List.filter_cons, List.filterMap_cons, hx,
          Value.isMissing, numOf] at ih ⊢
        exact ih
    · have hbeq : (x == a) = false := by simp [hxa]
      by_cases hkeep : (!x.isMissing && !y.isMissing) = true
      · simp [valid_data, valsFor, List.filter_cons, List.filterMap_cons, hkeep,
          hbeq] at ih ⊢
        exact ih
      · have hkeep' : (!x.isMissing && !y.isMissing) = false := by
          simpa using hkeep
        simp [valid_data, valsFor, List.filter_cons, hkeep', hbeq] at ih ⊢
        exact ih

/-- C3: the per-airline grouped mean of arrival delay (`performance`, built
from `valid_data = df[[airline_col, arr_delay_col]].dropna()`) excludes the
rows with a missing airline or a missing delay: the entry of any non-missing
airline key equals the arithmetic mean of that airline's non-missing delay
values in the original slice, and missing airline cells form no group. -/
theorem c3_grouped_mean_excludes_missing (rows : List (Value × Value)) (a : Value)
    (ha : a ≠ Value.missing) :
    List.lookup a (performance rows) = meanList (valsFor a rows)
    ∧ List.lookup Value.missing (performance rows) = none := by
  constructor
  · unfold performance
    rw [lookup_groupMeans, valsFor_valid_data rows a ha]
  · unfold performance
    rw [lookup_groupMeans]
    have hf : valsFor Value.missing (valid_data rows) = [] := by
      unfold valsFor
      have : (valid_data rows).filter (fun p => p.1 == Value.missing) = [] := by
        rw [List.filter_eq_nil_iff]
        intro p hp
        have := (List.mem_filter.mp hp).2
        simp only [Bool.and_eq_true, Bool.not_eq_true'] at this
        simp [beq_iff_eq]
        intro hmiss
        rw [hmiss] at this
        simp [Value.isMissing] at this
      simp [this]
    simp [hf, meanList]

/-- Witness for C3 on the specification's example rows
[(A,10), (A,missing), (B,20)]: the grouped mean for A is exactly 10. -/
theorem c3_witness :
    List.lookup (Value.str "A")
      (performance [(Value.str "A", Value.num 10), (Value.str "A", Value.missing),
        (Value.str "B", Value.num 20)]) = some 10 := by
  have h := (c3_grouped_mean_excludes_missing
    [(Value.str "A", Value.num 10), (Value.str "A", Value.missing),
      (Value.str "B", Value.num 20)] (Value.str "A") (by decide)).1
  rw [h, show valsFor (Value.str "A")
      [(Value.str "A", Value.num 10), (Value.str "A", Value.missing),
        (Value.str "B", Value.num 20)] = [(10 : Rat)] from by decide]
  norm_num [meanList]

theorem minPair_spec : ∀ (l : List (Value × Rat)) (p : Value × Rat),
    minPair l = some p → p ∈ l ∧ ∀ q ∈ l, p.2 ≤ q.2 := by
  intro l
  induction l with
  | nil => intro p h; simp [minPair] at h
  | cons x rest ih =>
    intro p h
    simp only [minPair, Option.some.injEq] at h
    cases hr : minPair rest with
    | none =>
      rw [hr] at h
      simp only [betterMin] at h
      subst h
      cases rest with
      | nil => exact ⟨List.mem_singleton_self _, by simp⟩
      | cons y t => simp [minPair] at hr
    | some m =>
      rw [hr] at h
      obtain ⟨hmem, hle⟩ := ih m hr
      simp only [betterMin] at h
      by_cases hxm : x.2 ≤ m.2
      · rw [if_pos hxm] at h
        subst h
        refine ⟨List.mem_cons_self _ _, ?_⟩
        intro q hq
        rcases List.mem_cons.mp hq with hq | hq
        · exact hq ▸ le_refl _
        · exact le_trans hxm (hle q hq)
      · rw [if_neg hxm] at h
        subst h
        refine ⟨List.mem_cons_of_mem x hmem, ?_⟩
        intro q hq
        rcases List.mem_cons.mp hq with hq | hq
        · exact hq ▸ le_of_lt (lt_of_not_le hxm)
        · exact hle q hq

theorem maxPair_spec : ∀ (l : List (Value × Rat)) (p : Value × Rat),
    maxPair l = some p → p ∈ l ∧ ∀ q ∈ l, q.2 ≤ p.2 := by
  intro l
  induction l with
  | nil => intro p h; simp [maxPair] at h
  | cons x rest ih =>
    intro p h
    simp only [maxPair, Option.some.injEq] at h
    cases hr : maxPair rest with
    | none =>
      rw [hr] at h
      simp only [betterMax] at h
      subst h
      cases rest with
      | nil => exact ⟨List.mem_singleton_self _, by simp⟩
      | cons y t => simp [maxPair] at hr
    | some m =>
      rw [hr] at h
      obtain ⟨hmem, hle⟩ := ih m hr
      simp only [betterMax] at h
      by_cases hxm : m.2 ≤ x.2
      · rw [if_pos hxm] at h
        subst h
        refine ⟨List.mem_cons_self _ _, ?_⟩
        intro q hq
        rcases List.mem_cons.mp hq with hq | hq
        · exact hq ▸ le_refl _
        · exact le_trans (hle q hq) hxm
      · rw [if_neg hxm] at h
        subst h
        refine ⟨List.mem_cons_of_mem x hmem, ?_⟩
        intro q hq
        rcases List.mem_cons.mp hq with hq | hq
        · exact hq ▸ le_of_lt (lt_of_not_le hxm)
        · exact hle q hq

/-- C4: the best/worst-airline insight returns labels only through `idxmin`
and `idxmax` of the per-airline mean arrival delays: whenever it reports
(best, worst), best carries the minimal and worst the maximal grouped mean;
and when the dropna'd slice or the grouping itself is empty, it reports
`none` (the "insufficient data" branches) instead of any label — no failure
path exists. -/
theorem c4_best_worst_airline (rows : List (Value × Value)) :
    (valid_data rows = [] → airlineInsight rows = none)
    ∧ (performance rows = [] → airlineInsight rows = none)
    ∧ (∀ b w, airlineInsight rows = some (b, w) →
        ∃ mb mw, (b, mb) ∈ performance rows ∧ (w, mw) ∈ performance rows
          ∧ ∀ p ∈ performance rows, mb ≤ p.2 ∧ p.2 ≤ mw) := by
  refine ⟨?_, ?_, ?_⟩
  · intro h
    simp [airlineInsight, h]
  · intro h
    unfold airlineInsight
    rw [h]
    by_cases hv : (valid_data rows).isEmpty <;>
      simp [hv, idxmin, idxmax, minPair, maxPair]
  · intro b w h
    unfold airlineInsight at h
    by_cases hv : (valid_data rows).isEmpty
    · simp [hv] at h
    · rw [if_neg (by simp [hv])] at h
      cases hmin : idxmin (performance rows) with
      | none => rw [hmin] at h; simp at h
      | some b' =>
        cases hmax : idxmax (performance rows) with
        | none => rw [hmin, hmax] at h; simp at h
        | some w' =>
          rw [hmin, hmax] at h
          simp only [Option.some.injEq, Prod.mk.injEq] at h
          obtain ⟨hb, hw⟩ := h
          subst hb; subst hw
          obtain ⟨pb, hpb, hpb1⟩ := Option.map_eq_some'.mp hmin
          obtain ⟨pw, hpw, hpw1⟩ := Option.map_eq_some'.mp hmax
          obtain ⟨hpbmem, hpble⟩ := minPair_spec _ _ hpb
          obtain ⟨hpwmem, hpwle⟩ := maxPair_spec _ _ hpw
          refine ⟨pb.2, pw.2, ?_, ?_, ?_⟩
          · rw [← hpb1]; simpa using hpbmem
          · rw [← hpw1]; simpa using hpwmem
          · exact fun p hp => ⟨hpble p hp, hpwle p hp⟩

/-- Witness for C4 on the specification's example: per-airline means
{A: 5, B: -2, C: 10} give best = B and worst = C. -/
theorem c4_witness :
    ∃ mb mw,
      (Value.str "B", mb) ∈ performance exMeansRows
      ∧ (Value.str "C", mw) ∈ performance exMeansRows
      ∧ ∀ p ∈ performance exMeansRows, mb ≤ p.2 ∧ p.2 ≤ mw := by
  refine (c4_best_worst_airline exMeansRows).2.2 (Value.str "B") (Value.str "C") ?_
  have hperf : performance exMeansRows
      = [(Value.str "A", 5), (Value.str "B", -2), (Value.str "C", 10)] := by
    unfold performance groupMeans
    rw [show ((valid_data exMeansRows).map Prod.fst).dedup
        = [Value.str "A", Value.str "B", Value.str "C"] from by decide]
    rw [List.filterMap_cons, List.filterMap_cons, List.filterMap_cons,
      List.filterMap_nil]
    rw [show valsFor (Value.str "A") (valid_data exMeansRows) = [(5 : Rat)] from
        by decide,
      show valsFor (Value.str "B") (valid_data exMeansRows) = [(-2 : Rat)] from
        by decide,
      show valsFor (Value.str "C") (valid_data exMeansRows) = [(10 : Rat)] from
        by decide]
    norm_num [meanList]
  unfold airlineInsight
  rw [hperf, show (valid_data exMeansRows).isEmpty = false from by decide]
  decide

theorem counts_of_clean (delays : List Value)
    (h : ∀ v ∈ delays, (v.isMissing || (numOf v).isSome) = true) :
    (delays.filterMap numOf).length = nonMissingCount delays
    ∧ ((delays.filterMap numOf).filter (fun q => decide (q ≤ 0))).length
        = onTimeCount delays := by
  induction delays with
  | nil => exact ⟨rfl, rfl⟩
  | cons v rest ih =>
    have hv := h v (List.mem_cons_self _ _)
    have hrest := ih (fun w hw => h w (List.mem_cons_of_mem _ hw))
    cases v with
    | missing =>
      simpa [List.filterMap_cons, numOf, nonMissingCount, onTimeCount,
        Value.isMissing, List.countP_cons] using hrest
    | num q =>
      constructor
      · simp [List.filterMap_cons, numOf, nonMissingCount, Value.isMissing,
          List.countP_cons, hrest.1]
      · by_cases hq : q ≤ 0
        · simp [List.filterMap_cons, numOf, onTimeCount, List.countP_cons,
            List.filter_cons, hq, hrest.2]
        · simp [List.filterMap_cons, numOf, onTimeCount, List.countP_cons,
            List.filter_cons, hq, hrest.2]
    | str s =>
      simp [Value.isMissing, numOf] at hv

/-- C5: the on-time rate is computed only when the arrival-delay role is
bound (`if arr_delay_col:`) and some non-missing delay remains
(`if not valid_arr.empty:`); in that case it equals the number of
non-missing delays that are ≤ 0 divided by the number of non-missing
delays, times 100.  An unbound role or an all-missing column produces no
rate at all. -/
theorem c5_on_time_rate :
    onTimeInsight none = none
    ∧ (∀ delays : List Value, (∀ v ∈ delays, v = Value.missing) →
        onTimeInsight (some delays) = none)
    ∧ (∀ delays : List Value,
        (∀ v ∈ delays, (v.isMissing || (numOf v).isSome) = true) →
        nonMissingCount delays ≠ 0 →
        onTimeInsight (some delays)
          = some ((onTimeCount delays : Rat) / (nonMissingCount delays : Rat) * 100)) := by
  refine ⟨rfl, ?_, ?_⟩
  · intro delays h
    have hnil : delays.filterMap numOf = [] := by
      rw [List.filterMap_eq_nil_iff]
      intro v hv
      rw [h v hv]
      rfl
    simp [onTimeInsight, onTimeRate, hnil]
  · intro delays hcl hnz
    obtain ⟨h1, h2⟩ := counts_of_clean delays hcl
    have hne : delays.filterMap numOf ≠ [] := by
      intro h0
      apply hnz
      rw [← h1, h0]
      rfl
    simp only [onTimeInsight, onTimeRate]
    rw [if_neg (by simpa [List.isEmpty_iff] using hne)]
    rw [h1, h2]

/-- Witness for C5 on the specification's example delays [-5, 0, 3, missing]:
the on-time rate is 2/3 of 100, i.e. 200/3. -/
theorem c5_witness :
    onTimeInsight (some exDelays) = some (200 / 3) := by
  have h := c5_on_time_rate.2.2 exDelays (by decide) (by decide)
  rw [h, show onTimeCount exDelays = 2 from by decide,
    show nonMissingCount exDelays = 3 from by decide]
  norm_num

/-- C6: the top-10 busiest ranking (`value_counts().head(10)`) has at most
10 entries, its entries are in descending order of frequency count, and its
length is exactly min(10, number of distinct non-missing origin values). -/
theorem c6_top10_busiest (l : List Value) :
    (top10Busiest l).length = min 10 ((l.filter (fun v => !v.isMissing)).dedup.length)
    ∧ List.Pairwise (fun p q : Value × Nat => q.2 ≤ p.2) (top10Busiest l)
    ∧ (top10Busiest l).length ≤ 10 := by
  have hlen : (value_counts l).length
      = ((l.filter (fun v => !v.isMissing)).dedup.length) := by
    unfold value_counts
    rw [(List.mergeSort_perm _ _).length_eq, List.length_map]
  refine ⟨?_, ?_, ?_⟩
  · unfold top10Busiest
    rw [List.length_take, hlen]
  · unfold top10Busiest
    refine List.Pairwise.sublist (List.take_sublist _ _) ?_
    unfold value_counts
    have hs : (((l.filter (fun v => !v.isMissing)).dedup.map
        (fun k => (k, (l.filter (fun v => !v.isMissing)).count k))).mergeSort
        (fun p q : Value × Nat => decide (q.2 ≤ p.2))).Pairwise
        (fun p q : Value × Nat => decide (q.2 ≤ p.2) = true) :=
      List.sorted_mergeSort
        (fun a b c h1 h2 => by
          simp only [decide_eq_true_eq] at h1 h2 ⊢
          exact le_trans h2 h1)
        (fun a b => by
          simp only [Bool.or_eq_true, decide_eq_true_eq]
          exact le_total b.2 a.2)
        ((l.filter (fun v => !v.isMissing)).dedup.map
          (fun k => (k, (l.filter (fun v => !v.isMissing)).count k)))
    exact hs.imp (fun h => by simpa using h)
  · unfold top10Busiest
    rw [List.length_take]
    exact min_le_left _ _

/-- C7 counterexample: on a table whose airline column is ["A", missing],
the full selectable set (the distinct *non-missing* values, as offered by
the sidebar multiselect) is {"A"}, and filtering with it drops the
missing-airline row — the filtered table is not the original table. -/
theorem c7_counterexample :
    filterByAirline id (airlineOptions id [Value.str "A", Value.missing])
      [Value.str "A", Value.missing] ≠ [Value.str "A", Value.missing] := by
  decide

/-- C7 (amended): for every table with the airline role bound *whose airline
column has no missing values*, filtering with a selection equal to the full
distinct-value set returns the original table — same rows, same order, same
count.  (When a missing airline value is present the select-all filter drops
that row, see the counterexample.) -/
theorem c7_full_selection_identity {α : Type} (f : α → Value) (rows : List α)
    (h : ∀ r ∈ rows, (f r).isMissing = false) :
    filterByAirline f (airlineOptions f rows) rows = rows := by
  unfold filterByAirline
  rw [List.filter_eq_self]
  intro r hr
  rw [decide_eq_true_eq]
  unfold airlineOptions
  rw [List.mem_dedup, List.mem_filter]
  exact ⟨List.mem_map_of_mem f hr, by simp [h r hr]⟩

/-- Witness for C7 (amended) on the all-present table ["A", "B"]: the
select-all filter is the identity. -/
theorem c7_witness :
    filterByAirline id (airlineOptions id [Value.str "A", Value.str "B"])
      [Value.str "A", Value.str "B"] = [Value.str "A", Value.str "B"] :=
  c7_full_selection_identity id [Value.str "A", Value.str "B"] (by decide)

/-- C9: after filtering, every surviving row's airline value is a member of
the selection; the offered selectable values never include the missing
marker; hence under any selection drawn from the offered values (the
default select-all included) every surviving row has a non-missing airline
value — rows with a missing airline cell are always removed. -/
theorem c9_filter_invariant {α : Type} (f : α → Value) (sel : List Value)
    (rows : List α) :
    (∀ r ∈ filterByAirline f sel rows, f r ∈ sel)
    ∧ Value.missing ∉ airlineOptions f rows
    ∧ ((∀ v ∈ sel, v ∈ airlineOptions f rows) →
        ∀ r ∈ filterByAirline f sel rows, (f r).isMissing = false) := by
  have h1 : ∀ r ∈ filterByAirline f sel rows, f r ∈ sel := by
    intro r hr
    have := (List.mem_filter.mp hr).2
    rwa [decide_eq_true_eq] at this
  have h2 : Value.missing ∉ airlineOptions f rows := by
    unfold airlineOptions
    rw [List.mem_dedup, List.mem_filter]
    rintro ⟨-, hmiss⟩
    simp [Value.isMissing] at hmiss
  refine ⟨h1, h2, ?_⟩
  intro hsub r hr
  have hmem := hsub (f r) (h1 r hr)
  unfold airlineOptions at hmem
  rw [List.mem_dedup, List.mem_filter] at hmem
  simpa using hmem.2

/-- Witness for C9 with selection {"A"} over the table ["A", missing]: the
surviving row "A" is in the selection, the option list omits the missing
marker, and the surviving row's airline value is non-missing. -/
theorem c9_witness :
    id (Value.str "A") ∈ ([Value.str "A"] : List Value)
    ∧ Value.missing ∉ airlineOptions id [Value.str "A", Value.missing]
    ∧ (id (Value.str "A")).isMissing = false := by
  obtain ⟨h1, h2, h3⟩ :=
    c9_filter_invariant id [Value.str "A"] [Value.str "A", Value.missing]
  exact ⟨h1 (Value.str "A") (by decide), h2,
    h3 (by decide) (Value.str "A") (by decide)⟩

/-- C8 counterexample: `sample = df.sample(min(2000, len(df)))` draws from
the *unrestricted* filtered table.  On the one-row table whose single row
has a missing departure delay, the only index list a sample run can draw is
[0], and the resulting sample contains that row — its departure-delay cell
is missing, refuting "every sampled row has both delay values
non-missing". -/
theorem c8_counterexample :
    sampleIdxsOK [(Value.missing, Value.num 5)] [0]
    ∧ (Value.missing, Value.num 5) ∈ dfSample [(Value.missing, Value.num 5)] [0]
    ∧ (Value.missing, Value.num 5).1.isMissing = true :=
  ⟨⟨by decide, by decide, by decide⟩, by decide, by decide⟩

/-- C8 (amended): the departure-vs-arrival scatter sample is a
without-replacement sample of exactly min(2000, row count) rows drawn from
the whole filtered table — not from the table restricted to rows with both
delays present — so every sampled row is a row of the filtered table, but a
sampled row may carry a missing delay value. -/
theorem c8_sample_bounds (rows : List (Value × Value)) (idxs : List Nat)
    (h : sampleIdxsOK rows idxs) :
    (dfSample rows idxs).length = min 2000 rows.length
    ∧ ∀ r ∈ dfSample rows idxs, r ∈ rows := by
  obtain ⟨-, hlt, hlen⟩ := h
  constructor
  · rw [← hlen]
    clear hlen
    induction idxs with
    | nil => rfl
    | cons i rest ih =>
      have hi : i < rows.length := hlt i (List.mem_cons_self _ _)
      obtain ⟨a, ha⟩ : ∃ a, rows.get? i = some a :=
        ⟨rows.get ⟨i, hi⟩, List.get?_eq_get hi⟩
      have ha' : rows[i]? = some a := by
        simpa [List.get?_eq_getElem?] using ha
      simp [dfSample, List.filterMap_cons, ha',
        ih (fun j hj => hlt j (List.mem_cons_of_mem _ hj))]
      intro j hj
      rw [List.getElem?_eq_getElem (hlt j (List.mem_cons_of_mem _ hj))]
      rfl
  · intro r hr
    unfold dfSample at hr
    rw [List.mem_filterMap] at hr
    obtain ⟨i, -, hi⟩ := hr
    exact List.get?_mem hi

/-- Witness for C8 (amended) on a one-row table: the sample at index list
[0] has length min 2000 1. -/
theorem c8_witness :
    (dfSample [(Value.num 1, Value.num 2)] [0]).length
      = min 2000 ([(Value.num 1, Value.num 2)] : List (Value × Value)).length :=
  (c8_sample_bounds [(Value.num 1, Value.num 2)] [0]
    ⟨by decide, by decide, by decide⟩).1

end FlightDash
